import Mathlib

/-!
Verification of the action-execution engine of the maru task runner
(pkg/runner/actions.go).  The Go functions are shallowly embedded as Lean
functions; Go maps are modelled as association lists whose order records
one possible iteration order; machine integers holding durations and retry
counts are modelled as Nat (the repository invariants require them to be
nonnegative); the external process spawner (ExecAction / the pkg/exec
library) is modelled as an oracle giving the outcome of each spawned
attempt.
-/

namespace Maru

/-- Modelled from the spec (section 3): the parameter contract of one task
input.  The Go types package is not among the provided sources. -/
structure InputParameter where
  required : Bool
  default : String
  deprecatedMessage : String
  deriving DecidableEq, Repr

/-- Modelled from the spec (section 4.2): a setVariables capture entry.
Pattern validation (a regular expression in Go) is abstracted to a Boolean
predicate on the written value; the variables package is not among the
provided sources. -/
structure Variable where
  name : String
  pattern : String → Bool

/-- Modelled from the spec (section 4.5): a shell preference giving the
shell per platform. -/
structure ShellPreference where
  linux : String
  darwin : String
  windows : String
  deriving DecidableEq, Repr

/-- Modelled from the spec (section 3): the cluster form of a wait action. -/
structure ActionWaitCluster where
  kind : String
  identifier : String
  condition : String
  nspace : String
  deriving DecidableEq, Repr

/-- Modelled from the spec (section 3): the network form of a wait action. -/
structure ActionWaitNetwork where
  protocol : String
  address : String
  code : Nat
  deriving DecidableEq, Repr

/-- Modelled from the spec (section 3): a declarative readiness probe. -/
structure ActionWait where
  cluster : Option ActionWaitCluster
  network : Option ActionWaitNetwork
  deriving DecidableEq, Repr

/-- Modelled from the spec (section 3): the shell-step part of an action.
Optional Go pointer fields become Option. -/
structure BaseAction where
  description : String
  cmd : String
  wait : Option ActionWait
  If : String
  mute : Option Bool
  maxTotalSeconds : Option Nat
  maxRetries : Option Nat
  dir : Option String
  env : List String
  shell : Option ShellPreference
  setVariables : List Variable

/-- Modelled from the spec (section 3): an action embeds a BaseAction and
adds a task reference plus its with-map. -/
structure Action extends BaseAction where
  taskReference : String
  With : List (String × String)

/-- Modelled from the spec (section 3): a named task. -/
structure Task where
  name : String
  inputs : List (String × InputParameter)
  actions : List Action

/-- Modelled from the spec (section 4.5): the merged execution
configuration of one action (types.ActionDefaults). -/
structure ActionDefaults where
  mute : Bool
  maxTotalSeconds : Nat
  maxRetries : Nat
  dir : String
  env : List String
  shell : ShellPreference

/-- The variable store, name to current value (section 4.2 of the spec). -/
abbrev Store := List (String × String)

/- String helpers mirroring the Go strings package, written structurally
over the character list so that concrete runs evaluate by kernel
reduction. -/

/-- Models strings.TrimSpace: drop whitespace from both ends. -/
def trimSpace (s : String) : String :=
  ⟨((s.data.dropWhile Char.isWhitespace).reverse.dropWhile Char.isWhitespace).reverse⟩

/-- Models strings.ToLower. -/
def toLowerStr (s : String) : String :=
  ⟨s.data.map Char.toLower⟩

/-- Models strings.HasPrefix. -/
def hasPrefixStr (s pat : String) : Bool :=
  pat.data.isPrefixOf s.data

/-- Models strings.Contains on the underlying character lists. -/
def listContainsSub : List Char → List Char → Bool
  | _, [] => true
  | [], _ :: _ => false
  | c :: rest, p :: ps => (p :: ps).isPrefixOf (c :: rest) || listContainsSub rest (p :: ps)

/-- Models strings.Contains. -/
def containsSub (s pat : String) : Bool :=
  listContainsSub s.data pat.data

/-- Models strings.Split(s, sep)[0] for a one-character separator: the part
of s before the first occurrence of the separator (all of s when the
separator does not occur). -/
def splitColonHead (s : String) : String :=
  ⟨s.data.takeWhile (fun c => c ≠ ':')⟩

/- getUniqueTaskActions, actions.go lines 94 to 105. -/

/-- The loop of getUniqueTaskActions; the Go map uniqueMap is modelled as
the list of keys already inserted. -/
def getUniqueTaskActionsGo : List String → List Action → List Action
  | _, [] => []
  | seen, action :: rest =>
    if seen.contains action.taskReference then getUniqueTaskActionsGo seen rest
    else action :: getUniqueTaskActionsGo (action.taskReference :: seen) rest

/-- Models getUniqueTaskActions (actions.go lines 94 to 105). -/
def getUniqueTaskActions (actions : List Action) : List Action :=
  getUniqueTaskActionsGo [] actions

/-- The claim C9 statement of the result, written from the words of the
claim: keep the first action carrying each distinct TaskReference value,
dropping every later action whose TaskReference was already seen. -/
def uniqueTaskActionsSpec : List Action → List Action
  | [] => []
  | a :: rest =>
    a :: uniqueTaskActionsSpec (rest.filter fun b => b.taskReference != a.taskReference)
  termination_by l => l.length
  decreasing_by
    simp only [List.length_cons]
    exact Nat.lt_succ_of_le (List.length_filter_le _ _)

theorem getUniqueTaskActionsGo_eq (n : Nat) :
    ∀ (l : List Action), l.length ≤ n → ∀ seen, getUniqueTaskActionsGo seen l
      = uniqueTaskActionsSpec (l.filter fun b => !seen.contains b.taskReference) := by
  induction n with
  | zero =>
    intro l h seen
    have hl : l = [] := List.eq_nil_of_length_eq_zero (Nat.le_zero.mp h)
    subst hl
    simp [getUniqueTaskActionsGo, uniqueTaskActionsSpec]
  | succ n ih =>
    intro l h seen
    cases l with
    | nil => simp [getUniqueTaskActionsGo, uniqueTaskActionsSpec]
    | cons a rest =>
      have hrest : rest.length ≤ n := Nat.le_of_succ_le_succ h
      by_cases hc : seen.contains a.taskReference
      · simp only [getUniqueTaskActionsGo, hc, if_true, List.filter_cons, Bool.not_true,
          ite_false, Bool.false_eq_true]
        exact ih rest hrest seen
      · have hc' : seen.contains a.taskReference = false := by
          simpa using hc
        simp only [getUniqueTaskActionsGo, hc', if_false, List.filter_cons, Bool.not_false,
          ite_true, Bool.false_eq_true, uniqueTaskActionsSpec]
        rw [ih rest hrest (a.taskReference :: seen), List.filter_filter]
        have hfc : List.filter (fun b => !(a.taskReference :: seen).contains b.taskReference) rest
            = List.filter
                (fun b => b.taskReference != a.taskReference && !seen.contains b.taskReference)
                rest := by
          apply List.filter_congr
          intro b _
          simp only [List.contains_cons]
          cases hb : b.taskReference == a.taskReference <;>
            cases hs : seen.contains b.taskReference <;> simp [bne, hb, hs]
        rw [hfc]

/-- Claim C9: getUniqueTaskActions returns exactly the first action
carrying each distinct TaskReference value, in the original relative
order; later actions whose TaskReference was already seen are dropped. -/
theorem getUniqueTaskActions_correct (l : List Action) :
    getUniqueTaskActions l = uniqueTaskActionsSpec l := by
  rw [getUniqueTaskActions, getUniqueTaskActionsGo_eq l.length l (Nat.le_refl _) []]
  congr 1
  simp

/- GetBaseActionCfg, actions.go lines 264 to 301.  The variable map and
config.GetExtraEnv() (config package not among the sources) are passed as
association lists of name-value pairs; their list order records one
possible Go map iteration order. -/

/-- Models fmt.Sprintf of one K=V environment entry. -/
def formatKV (kv : String × String) : String :=
  kv.1 ++ "=" ++ kv.2

/-- Models GetBaseActionCfg (actions.go lines 264 to 301): merge the
ActionDefaults with the non-nil overrides of the BaseAction, then append
one K=V entry per store variable and per extra-env entry. -/
def GetBaseActionCfg (cfg : ActionDefaults) (a : BaseAction)
    (vars : List (String × String)) (extraEnv : List (String × String)) : ActionDefaults :=
  let cfg := match a.mute with
    | some m => { cfg with mute := m }
    | none => cfg
  let cfg := match a.maxTotalSeconds with
    | some s => { cfg with maxTotalSeconds := s }
    | none => cfg
  let cfg := match a.maxRetries with
    | some r => { cfg with maxRetries := r }
    | none => cfg
  let cfg := match a.dir with
    | some d => { cfg with dir := d }
    | none => cfg
  let cfg := if a.env.length > 0 then { cfg with env := cfg.env ++ a.env } else cfg
  let cfg := match a.shell with
    | some s => { cfg with shell := s }
    | none => cfg
  let cfg := { cfg with env := cfg.env ++ vars.map formatKV }
  let cfg := { cfg with env := cfg.env ++ extraEnv.map formatKV }
  cfg

/-- Claim C10: GetBaseActionCfg leaves each defaults field unchanged when
the corresponding override of the action is nil (Mute, MaxTotalSeconds,
MaxRetries, Dir, Shell), and the resulting Env is exactly the defaults env
followed by the action env entries, then one K=V entry per store variable,
then the extra-env entries. -/
theorem getBaseActionCfg_frame_and_env (cfg : ActionDefaults) (a : BaseAction)
    (vars : List (String × String)) (extraEnv : List (String × String)) :
    (a.mute = none → (GetBaseActionCfg cfg a vars extraEnv).mute = cfg.mute) ∧
    (a.maxTotalSeconds = none →
      (GetBaseActionCfg cfg a vars extraEnv).maxTotalSeconds = cfg.maxTotalSeconds) ∧
    (a.maxRetries = none → (GetBaseActionCfg cfg a vars extraEnv).maxRetries = cfg.maxRetries) ∧
    (a.dir = none → (GetBaseActionCfg cfg a vars extraEnv).dir = cfg.dir) ∧
    (a.shell = none → (GetBaseActionCfg cfg a vars extraEnv).shell = cfg.shell) ∧
    (GetBaseActionCfg cfg a vars extraEnv).env =
      cfg.env ++ a.env ++ vars.map formatKV
        ++ extraEnv.map formatKV := by
  obtain ⟨desc, cmd, wait, cIf, mute, mts, mr, dir, env, shell, sv⟩ := a
  cases mute <;> cases mts <;> cases mr <;> cases dir <;> cases shell <;> cases env <;>
    simp [GetBaseActionCfg]

/-- Concrete instantiation of the claim C10 theorem: an action with all
overrides nil and a one-entry env keeps every defaults field, and the env
is composed in the stated order. -/
theorem getBaseActionCfg_frame_and_env_witness :
    (GetBaseActionCfg
        ⟨false, 7, 2, "d", ["A=1"], ⟨"sh", "sh", "cmd"⟩⟩
        ⟨"", "", none, "", none, none, none, none, ["B=2"], none, []⟩
        [("V", "v")] [("E", "e")]).mute = false ∧
    (GetBaseActionCfg
        ⟨false, 7, 2, "d", ["A=1"], ⟨"sh", "sh", "cmd"⟩⟩
        ⟨"", "", none, "", none, none, none, none, ["B=2"], none, []⟩
        [("V", "v")] [("E", "e")]).env = ["A=1", "B=2", "V=v", "E=e"] := by
  have h := getBaseActionCfg_frame_and_env
    ⟨false, 7, 2, "d", ["A=1"], ⟨"sh", "sh", "cmd"⟩⟩
    ⟨"", "", none, "", none, none, none, none, ["B=2"], none, []⟩
    [("V", "v")] [("E", "e")]
  exact ⟨h.1 rfl, by rw [h.2.2.2.2.2]; rfl⟩

/- validateActionableTaskCall, actions.go lines 377 to 416.  The Go maps
inputs and withs are modelled as association lists whose order records one
possible iteration order. -/

/-- The missing-input collection loop of validateActionableTaskCall
(actions.go lines 379 to 396): an input is missing when it is required,
has an empty default, and no with entry supplies it a non-empty value. -/
def missingInputs (withs : List (String × String)) :
    List (String × InputParameter) → List String
  | [] => []
  | (inputKey, input) :: rest =>
    if !input.required || input.default != "" then missingInputs withs rest
    else if withs.any (fun w => inputKey == w.1 && w.2 != "") then missingInputs withs rest
    else inputKey :: missingInputs withs rest

/-- The warning loop of validateActionableTaskCall (actions.go lines 400
to 414): warn on deprecated inputs that are supplied and on with keys
matching no declared input. -/
def taskCallWarnings (inputTaskName : String) (inputs : List (String × InputParameter)) :
    List (String × String) → List String
  | [] => []
  | (withKey, _) :: rest =>
    match inputs.find? (fun ip => withKey == ip.1) with
    | some ip =>
      if ip.2.deprecatedMessage != "" then
        ("This input has been marked deprecated: " ++ ip.2.deprecatedMessage)
          :: taskCallWarnings inputTaskName inputs rest
      else taskCallWarnings inputTaskName inputs rest
    | none =>
      ("Task " ++ inputTaskName ++ " does not have an input named " ++ withKey)
        :: taskCallWarnings inputTaskName inputs rest

/-- The outcome of validateActionableTaskCall: the logged warnings and the
returned error, if any. -/
structure ValidateResult where
  warnings : List String
  err : Option String
  deriving DecidableEq, Repr

/-- Models validateActionableTaskCall (actions.go lines 377 to 416): fail
naming the missing required inputs when there are any (the warning loop is
then never reached), otherwise log the warnings and succeed. -/
def validateActionableTaskCall (inputTaskName : String)
    (inputs : List (String × InputParameter)) (withs : List (String × String)) :
    ValidateResult :=
  let missing := missingInputs withs inputs
  if missing.length > 0 then
    ⟨[], some ("task " ++ inputTaskName ++ " is missing required inputs: "
        ++ String.intercalate ", " missing)⟩
  else
    ⟨taskCallWarnings inputTaskName inputs withs, none⟩

theorem taskCallWarnings_unknown (name : String) (inputs : List (String × InputParameter)) :
    ∀ (withs : List (String × String)) (wk wv : String), (wk, wv) ∈ withs →
      inputs.find? (fun ip => wk == ip.1) = none →
      ("Task " ++ name ++ " does not have an input named " ++ wk)
        ∈ taskCallWarnings name inputs withs := by
  intro withs
  induction withs with
  | nil => intro wk wv h; simp at h
  | cons w rest ih =>
    intro wk wv hmem hfind
    obtain ⟨k', v'⟩ := w
    rcases List.mem_cons.mp hmem with heq | hmem'
    · obtain ⟨hk, hv⟩ := Prod.mk.injEq .. ▸ heq
      subst hk
      simp only [taskCallWarnings, hfind]
      exact List.mem_cons_self _ _
    · simp only [taskCallWarnings]
      cases hf : inputs.find? (fun ip => k' == ip.1) with
      | some ip =>
        by_cases hd : (ip.2.deprecatedMessage != "") = true
        · simp only [hd, if_true]
          exact List.mem_cons_of_mem _ (ih wk wv hmem' hfind)
        · simp only [eq_false_of_ne_true hd, if_false]
          exact ih wk wv hmem' hfind
      | none => exact List.mem_cons_of_mem _ (ih wk wv hmem' hfind)

theorem taskCallWarnings_deprecated (name : String) (inputs : List (String × InputParameter)) :
    ∀ (withs : List (String × String)) (wk wv : String) (ip : String × InputParameter),
      (wk, wv) ∈ withs →
      inputs.find? (fun q => wk == q.1) = some ip →
      ip.2.deprecatedMessage ≠ "" →
      ("This input has been marked deprecated: " ++ ip.2.deprecatedMessage)
        ∈ taskCallWarnings name inputs withs := by
  intro withs
  induction withs with
  | nil => intro wk wv ip h; simp at h
  | cons w rest ih =>
    intro wk wv ip hmem hfind hdep
    obtain ⟨k', v'⟩ := w
    rcases List.mem_cons.mp hmem with heq | hmem'
    · obtain ⟨hk, hv⟩ := Prod.mk.injEq .. ▸ heq
      subst hk
      simp only [taskCallWarnings, hfind]
      have hd : (ip.2.deprecatedMessage != "") = true := by
        simpa [bne_iff_ne] using hdep
      simp only [hd, if_true]
      exact List.mem_cons_self _ _
    · simp only [taskCallWarnings]
      cases hf : inputs.find? (fun q => k' == q.1) with
      | some ip' =>
        by_cases hd : (ip'.2.deprecatedMessage != "") = true
        · simp only [hd, if_true]
          exact List.mem_cons_of_mem _ (ih wk wv ip hmem' hfind hdep)
        · simp only [eq_false_of_ne_true hd, if_false]
          exact ih wk wv ip hmem' hfind hdep
      | none => exact List.mem_cons_of_mem _ (ih wk wv ip hmem' hfind hdep)

theorem missingInputs_mem (withs : List (String × String)) :
    ∀ (inputs : List (String × InputParameter)) (k : String),
      k ∈ missingInputs withs inputs ↔
        ∃ inp, (k, inp) ∈ inputs ∧ inp.required = true ∧ inp.default = ""
          ∧ ∀ v, (k, v) ∈ withs → v = "" := by
  intro inputs
  induction inputs with
  | nil => intro k; simp [missingInputs]
  | cons kv rest ih =>
    intro k
    obtain ⟨k₀, inp₀⟩ := kv
    by_cases h1 : (!inp₀.required || inp₀.default != "") = true
    · have hunfold : missingInputs withs ((k₀, inp₀) :: rest) = missingInputs withs rest := by
        simp [missingInputs, h1]
      rw [hunfold, ih k]
      constructor
      · rintro ⟨inp, hmem, hr, hd, hw⟩
        exact ⟨inp, List.mem_cons_of_mem _ hmem, hr, hd, hw⟩
      · rintro ⟨inp, hmem, hr, hd, hw⟩
        rcases List.mem_cons.mp hmem with heq | hmem'
        · rw [Prod.mk.injEq] at heq
          obtain ⟨hk, hi⟩ := heq
          subst hi
          rw [hr, hd] at h1
          simp at h1
        · exact ⟨inp, hmem', hr, hd, hw⟩
    · have h1' : (!inp₀.required || inp₀.default != "") = false := eq_false_of_ne_true h1
      have hreq : inp₀.required = true ∧ inp₀.default = "" := by
        simpa [Bool.or_eq_false_iff, bne_eq_false_iff_eq] using h1'
      by_cases h2 : (withs.any (fun w => k₀ == w.1 && w.2 != "")) = true
      · have hex : ∃ v, (k₀, v) ∈ withs ∧ v ≠ "" := by
          rcases List.any_eq_true.mp h2 with ⟨w, hw, hcond⟩
          simp only [Bool.and_eq_true, beq_iff_eq, bne_iff_ne] at hcond
          refine ⟨w.2, ?_, hcond.2⟩
          rw [hcond.1]
          exact hw
        have hunfold : missingInputs withs ((k₀, inp₀) :: rest) = missingInputs withs rest := by
          simp [missingInputs, h1', h2]
        rw [hunfold, ih k]
        constructor
        · rintro ⟨inp, hmem, hr, hd, hw⟩
          exact ⟨inp, List.mem_cons_of_mem _ hmem, hr, hd, hw⟩
        · rintro ⟨inp, hmem, hr, hd, hw⟩
          rcases List.mem_cons.mp hmem with heq | hmem'
          · rw [Prod.mk.injEq] at heq
            obtain ⟨hk, hi⟩ := heq
            subst hk
            rcases hex with ⟨v, hvmem, hvne⟩
            exact absurd (hw v hvmem) hvne
          · exact ⟨inp, hmem', hr, hd, hw⟩
      · have h2' : (withs.any (fun w => k₀ == w.1 && w.2 != "")) = false :=
          eq_false_of_ne_true h2
        have hnone : ∀ v, (k₀, v) ∈ withs → v = "" := by
          intro v hv
          by_contra hne
          have : withs.any (fun w => k₀ == w.1 && w.2 != "") = true :=
            List.any_eq_true.mpr ⟨(k₀, v), hv, by simp [bne_iff_ne, hne]⟩
          rw [h2'] at this
          exact Bool.false_ne_true this
        have hunfold : missingInputs withs ((k₀, inp₀) :: rest)
            = k₀ :: missingInputs withs rest := by
          simp [missingInputs, h1', h2']
        rw [hunfold]
        constructor
        · intro hk
          rcases List.mem_cons.mp hk with hk | hk
          · subst hk
            exact ⟨inp₀, List.mem_cons_self _ _, hreq.1, hreq.2, hnone⟩
          · rcases (ih k).mp hk with ⟨inp, hmem, hr, hd, hw⟩
            exact ⟨inp, List.mem_cons_of_mem _ hmem, hr, hd, hw⟩
        · rintro ⟨inp, hmem, hr, hd, hw⟩
          rcases List.mem_cons.mp hmem with heq | hmem'
          · exact List.mem_cons.mpr (Or.inl (congrArg Prod.fst heq))
          · exact List.mem_cons.mpr (Or.inr ((ih k).mpr ⟨inp, hmem', hr, hd, hw⟩))

/-- Claim C5: validateActionableTaskCall fails exactly when some input key
is required, has an empty default, and is supplied no value or an empty
value; the missing list names exactly those keys; with keys matching no
declared input produce only a warning and never an error; deprecated
supplied inputs produce only a warning. -/
theorem validateActionableTaskCall_correct (name : String)
    (inputs : List (String × InputParameter)) (withs : List (String × String)) :
    ((validateActionableTaskCall name inputs withs).err = none
        ↔ missingInputs withs inputs = []) ∧
    (∀ k, k ∈ missingInputs withs inputs ↔
        ∃ inp, (k, inp) ∈ inputs ∧ inp.required = true ∧ inp.default = ""
          ∧ ∀ v, (k, v) ∈ withs → v = "") ∧
    (∀ wk wv, (wk, wv) ∈ withs → (∀ inp, (wk, inp) ∉ inputs) →
        missingInputs withs inputs = [] →
        ("Task " ++ name ++ " does not have an input named " ++ wk)
          ∈ (validateActionableTaskCall name inputs withs).warnings) ∧
    (∀ wk wv ip, (wk, wv) ∈ withs →
        inputs.find? (fun q => wk == q.1) = some ip →
        ip.2.deprecatedMessage ≠ "" →
        missingInputs withs inputs = [] →
        ("This input has been marked deprecated: " ++ ip.2.deprecatedMessage)
          ∈ (validateActionableTaskCall name inputs withs).warnings) := by
  refine ⟨?_, missingInputs_mem withs inputs, ?_, ?_⟩
  · constructor
    · intro h
      by_contra hne
      have hlen : (missingInputs withs inputs).length > 0 :=
        List.length_pos.mpr hne
      simp [validateActionableTaskCall, hlen] at h
    · intro h
      simp [validateActionableTaskCall, h]
  · intro wk wv hmem hnotin hempty
    have hfind : inputs.find? (fun ip => wk == ip.1) = none := by
      rw [List.find?_eq_none]
      intro x hx
      simp only [Bool.not_eq_true, beq_eq_false_iff_ne]
      intro hk
      exact hnotin x.2 (by rw [hk]; exact hx)
    have hres : validateActionableTaskCall name inputs withs
        = ⟨taskCallWarnings name inputs withs, none⟩ := by
      simp [validateActionableTaskCall, hempty]
    rw [hres]
    exact taskCallWarnings_unknown name inputs withs wk wv hmem hfind
  · intro wk wv ip hmem hfind hdep hempty
    have hres : validateActionableTaskCall name inputs withs
        = ⟨taskCallWarnings name inputs withs, none⟩ := by
      simp [validateActionableTaskCall, hempty]
    rw [hres]
    exact taskCallWarnings_deprecated name inputs withs wk wv ip hmem hfind hdep

/-- Concrete instantiation of the claim C5 theorem: a required input with
empty default and no supplied value yields the missing error; with no
missing inputs, an unknown with key and a deprecated supplied input both
warn while the call succeeds. -/
theorem validateActionableTaskCall_correct_witness :
    (validateActionableTaskCall "t" [("a", ⟨true, "", ""⟩)] []).err
      = some "task t is missing required inputs: a" ∧
    ("a" ∈ missingInputs [] [("a", ⟨true, "", ""⟩)]) ∧
    (validateActionableTaskCall "t" [("d", ⟨false, "", "old"⟩)] [("x", "1"), ("d", "2")]).err
      = none ∧
    ("Task t does not have an input named x"
      ∈ (validateActionableTaskCall "t" [("d", ⟨false, "", "old"⟩)]
          [("x", "1"), ("d", "2")]).warnings) ∧
    ("This input has been marked deprecated: old"
      ∈ (validateActionableTaskCall "t" [("d", ⟨false, "", "old"⟩)]
          [("x", "1"), ("d", "2")]).warnings) := by
  have h1 := validateActionableTaskCall_correct "t" [("a", ⟨true, "", ""⟩)] []
  have h2 := validateActionableTaskCall_correct "t" [("d", ⟨false, "", "old"⟩)]
    [("x", "1"), ("d", "2")]
  refine ⟨by decide, ?_, ?_, ?_, ?_⟩
  · exact (h1.2.1 "a").mpr ⟨⟨true, "", ""⟩, by decide, rfl, rfl, by intro v hv; simp at hv⟩
  · exact h2.1.mpr (by decide)
  · refine h2.2.2.1 "x" "1" (by decide) ?_ (by decide)
    intro inp h
    simp only [List.mem_singleton] at h
    rw [Prod.mk.injEq] at h
    exact absurd h.1 (by decide)
  · exact h2.2.2.2 "d" "2" ("d", ⟨false, "", "old"⟩) (by decide) (by decide)
      (by decide) (by decide)

/- Claim C6: determinism of the MissingInput message.  The Go code builds
the missing list while ranging over the inputs map, whose iteration order
Go randomizes, and never sorts it; the association-list order of the model
records the iteration order. -/

/-- A required input with empty default, used by the claim C6 theorems. -/
def requiredInput : InputParameter := ⟨true, "", ""⟩

/-- Claim C6 counterexample: one and the same input map, presented in two
iteration orders, yields two different MissingInput messages; the keys
follow iteration order and are not sorted, so the message is not identical
on every run. -/
theorem validateCall_message_order_cex :
    ([("a", requiredInput), ("b", requiredInput)] :
        List (String × InputParameter)).Perm
      [("b", requiredInput), ("a", requiredInput)] ∧
    (validateActionableTaskCall "t" [("a", requiredInput), ("b", requiredInput)] []).err
      = some "task t is missing required inputs: a, b" ∧
    (validateActionableTaskCall "t" [("b", requiredInput), ("a", requiredInput)] []).err
      = some "task t is missing required inputs: b, a" :=
  ⟨List.Perm.swap ("b", requiredInput) ("a", requiredInput) [], by decide, by decide⟩

/-- Claim C6 amended: the set of missing keys named by the error is
deterministic — permuting the iteration order of the inputs map only
permutes the listed keys — but the keys appear in iteration order, not
sorted, so the exact message string varies with the map iteration order. -/
theorem missingInputs_perm_stable (withs : List (String × String))
    {i1 i2 : List (String × InputParameter)} (h : i1.Perm i2) :
    (missingInputs withs i1).Perm (missingInputs withs i2) := by
  have hfm : ∀ l : List (String × InputParameter), missingInputs withs l
      = l.filterMap (fun kv =>
          if !kv.2.required || kv.2.default != "" then none
          else if withs.any (fun w => kv.1 == w.1 && w.2 != "") then none
          else some kv.1) := by
    intro l
    induction l with
    | nil => rfl
    | cons kv rest ih =>
      obtain ⟨k₀, inp₀⟩ := kv
      by_cases h1 : (!inp₀.required || inp₀.default != "") = true
      · have hf : (fun (kv : String × InputParameter) =>
            if !kv.2.required || kv.2.default != "" then none
            else if withs.any (fun w => kv.1 == w.1 && w.2 != "") then none
            else some kv.1) (k₀, inp₀) = none := by
          show (if !inp₀.required || inp₀.default != "" then none
            else if withs.any (fun w => k₀ == w.1 && w.2 != "") then none
            else some k₀) = none
          rw [if_pos h1]
        simp only [missingInputs, List.filterMap_cons, hf]
        rw [if_pos h1, ih]
      · by_cases h2 : (withs.any fun w => k₀ == w.1 && w.2 != "") = true
        · have hf : (fun (kv : String × InputParameter) =>
              if !kv.2.required || kv.2.default != "" then none
              else if withs.any (fun w => kv.1 == w.1 && w.2 != "") then none
              else some kv.1) (k₀, inp₀) = none := by
            show (if !inp₀.required || inp₀.default != "" then none
              else if withs.any (fun w => k₀ == w.1 && w.2 != "") then none
              else some k₀) = none
            rw [if_neg h1, if_pos h2]
          simp only [missingInputs, List.filterMap_cons, hf]
          rw [if_neg h1, if_pos h2, ih]
        · have hf : (fun (kv : String × InputParameter) =>
              if !kv.2.required || kv.2.default != "" then none
              else if withs.any (fun w => kv.1 == w.1 && w.2 != "") then none
              else some kv.1) (k₀, inp₀) = some k₀ := by
            show (if !inp₀.required || inp₀.default != "" then none
              else if withs.any (fun w => k₀ == w.1 && w.2 != "") then none
              else some k₀) = some k₀
            rw [if_neg h1, if_neg h2]
          simp only [missingInputs, List.filterMap_cons, hf]
          rw [if_neg h1, if_neg h2, ih]
  rw [hfm, hfm]
  exact h.filterMap _

/-- Concrete instantiation of the claim C6 amended theorem on a
two-element input map and its swap. -/
theorem missingInputs_perm_stable_witness :
    (missingInputs [] [("a", requiredInput), ("b", requiredInput)]).Perm
      (missingInputs [] [("b", requiredInput), ("a", requiredInput)]) :=
  missingInputs_perm_stable []
    (List.Perm.swap ("b", requiredInput) ("a", requiredInput) [])

/- performAction, actions.go lines 25 to 72.  TemplateTaskAction (utils
package, not among the sources) runs before the conditional chain; the
model therefore takes the already-templated action, which is exactly the
quantification of claim C1. -/

/-- The branch that performAction takes after templating: one of the three
skip branches (actions.go lines 30 to 40), the task-reference branch (line
42), or the base-action branch invoking RunAction (line 66). -/
inductive PerformBranch
  | skipRef
  | skipDesc
  | skipCmd
  | runRef
  | runBase
  deriving DecidableEq, Repr

/-- Whether a branch is one of the three skip branches, each of which logs
and returns success before any task lookup, process spawn, or variable
write. -/
def PerformBranch.isSkip : PerformBranch → Bool
  | .skipRef => true
  | .skipDesc => true
  | .skipCmd => true
  | .runRef => false
  | .runBase => false

/-- Models the branch selection of performAction (actions.go lines 30 to
70) on the already-templated action. -/
def performActionBranch (action : Action) : PerformBranch :=
  if action.If = "false" ∧ action.taskReference ≠ "" then .skipRef
  else if action.If = "false" ∧ action.description ≠ "" then .skipDesc
  else if action.If = "false" ∧ action.cmd ≠ "" then .skipCmd
  else if action.taskReference ≠ "" then .runRef
  else .runBase

/-- Claim C1 counterexample: a wait action whose templated if field is the
literal "false" but whose description, cmd and taskReference are all empty
matches none of the three skip branches, so performAction falls through to
RunAction (line 66), which spawns the synthesized wait command instead of
returning success. -/
theorem performAction_skip_cex :
    performActionBranch
        { description := "", cmd := "",
          wait := some ⟨some ⟨"pod", "p", "Ready", ""⟩, none⟩,
          If := "false", mute := none, maxTotalSeconds := none, maxRetries := none,
          dir := none, env := [], shell := none, setVariables := [],
          taskReference := "", With := [] } = PerformBranch.runBase ∧
    (PerformBranch.runBase.isSkip = false) := by
  exact ⟨rfl, rfl⟩

/-- Claim C1 amended: performAction skips, returning success with no
process spawn and no variable mutation, exactly when the templated if
field equals "false" and the action carries a nonempty taskReference,
description, or cmd; a wait action with all three empty is not skipped. -/
theorem performAction_skip_iff (a : Action) :
    (performActionBranch a).isSkip = true ↔
      a.If = "false" ∧ (a.taskReference ≠ "" ∨ a.description ≠ "" ∨ a.cmd ≠ "") := by
  unfold performActionBranch
  split_ifs with h1 h2 h3 h4 <;> simp only [PerformBranch.isSkip]
  · exact ⟨fun _ => ⟨h1.1, Or.inl h1.2⟩, fun _ => trivial⟩
  · exact ⟨fun _ => ⟨h2.1, Or.inr (Or.inl h2.2)⟩, fun _ => trivial⟩
  · exact ⟨fun _ => ⟨h3.1, Or.inr (Or.inr h3.2)⟩, fun _ => trivial⟩
  · constructor
    · intro h
      simp at h
    · intro h
      exact absurd ⟨h.1, h4⟩ h1
  · constructor
    · intro h
      simp at h
    · intro h
      have href : a.taskReference = "" := not_not.mp h4
      rcases h.2 with hr | hd | hc
      · exact absurd href hr
      · exact absurd ⟨h.1, hd⟩ h2
      · exact absurd ⟨h.1, hc⟩ h3

/- processAction, actions.go lines 74 to 92. -/

/-- Models processAction (actions.go lines 74 to 92): decide whether the
include referenced by the action still needs processing, scanning the task
pool for names containing either namespace head followed by a colon. -/
def processAction (poolTasks : List Task) (task : Task) (action : Action) : Bool :=
  let taskReferenceName := splitColonHead task.name
  let actionReferenceName := splitColonHead action.taskReference
  if action.taskReference != "" && taskReferenceName != actionReferenceName then
    if poolTasks.any (fun t => containsSub t.name (taskReferenceName ++ ":")
        || containsSub t.name (actionReferenceName ++ ":")) then false
    else true
  else false

/-- Claim C8 counterexample: the current task is a:t, the action
references b:u, and the pool holds only a:x.  No pool task bears the b:
namespace prefix of the reference, yet processAction returns false (the
merge is skipped) because a pool task contains the a: head of the current
task. -/
theorem processAction_skip_cex :
    processAction [⟨"a:x", [], []⟩] ⟨"a:t", [], []⟩
        { description := "", cmd := "", wait := none, If := "", mute := none,
          maxTotalSeconds := none, maxRetries := none, dir := none, env := [],
          shell := none, setVariables := [], taskReference := "b:u", With := [] } = false ∧
    hasPrefixStr "a:x" "b:" = false ∧
    containsSub "a:x" "b:" = false := by
  exact ⟨rfl, rfl, rfl⟩

/-- Claim C8 amended: processAction returns false (the merge is skipped)
iff the reference is empty, or the reference namespace head equals the
current task namespace head, or some pool task name contains, as a
substring, either namespace head followed by a colon — not exactly when a
pool task bears the reference namespace prefix. -/
theorem processAction_false_iff (poolTasks : List Task) (task : Task) (action : Action) :
    processAction poolTasks task action = false ↔
      (action.taskReference = ""
        ∨ splitColonHead task.name = splitColonHead action.taskReference
        ∨ ∃ t ∈ poolTasks,
            containsSub t.name (splitColonHead task.name ++ ":") = true
            ∨ containsSub t.name (splitColonHead action.taskReference ++ ":") = true) := by
  unfold processAction
  by_cases hout : (action.taskReference != ""
      && splitColonHead task.name != splitColonHead action.taskReference) = true
  · rw [if_pos hout]
    simp only [Bool.and_eq_true, bne_iff_ne] at hout
    obtain ⟨href, hne⟩ := hout
    by_cases hany : (poolTasks.any fun t => containsSub t.name (splitColonHead task.name ++ ":")
        || containsSub t.name (splitColonHead action.taskReference ++ ":")) = true
    · rw [if_pos hany]
      simp only [List.any_eq_true, Bool.or_eq_true] at hany
      exact ⟨fun _ => Or.inr (Or.inr hany), fun _ => rfl⟩
    · rw [if_neg hany]
      constructor
      · intro h
        simp at h
      · rintro (h | h | h)
        · exact absurd h href
        · exact absurd h hne
        · refine absurd (List.any_eq_true.mpr ?_) hany
          rcases h with ⟨t, hmem, hc⟩
          refine ⟨t, hmem, ?_⟩
          rcases hc with hc | hc <;> simp [hc]
  · rw [if_neg hout]
    constructor
    · intro _
      by_cases href : action.taskReference = ""
      · exact Or.inl href
      · refine Or.inr (Or.inl ?_)
        by_contra hne
        exact hout (by simp [bne_iff_ne, href, hne])
    · intro _
      rfl


/- convertWaitToCmd, actions.go lines 329 to 375, and the wait
preprocessing of RunAction, actions.go lines 119 to 145.  config.CmdPrefix
(config package, not among the sources) is passed as a parameter. -/

/-- Models convertWaitToCmd (actions.go lines 329 to 375): synthesize the
zarf wait-for shell command from the wait declaration and timeout. -/
def convertWaitToCmd (cmdPrefix : String) (wait : ActionWait) (timeout : Nat) :
    Except String String :=
  let timeoutString := "--timeout " ++ toString timeout ++ "s"
  match wait.cluster with
  | some cluster =>
    let ns := if cluster.nspace != "" then "-n " ++ cluster.nspace else cluster.nspace
    let cmd := "zarf tools wait-for " ++ cluster.kind ++ " " ++ cluster.identifier ++ " "
      ++ cluster.condition ++ " " ++ ns ++ " " ++ timeoutString
    let cmd := if cmdPrefix != "" then "./" ++ cmdPrefix ++ " " ++ cmd else cmd
    .ok cmd
  | none =>
    match wait.network with
    | some network =>
      let protocol := toLowerStr network.protocol
      let code := if hasPrefixStr protocol "http" && network.code == 0 then 200
        else network.code
      let cmd := "zarf tools wait-for " ++ protocol ++ " " ++ network.address ++ " "
        ++ toString code ++ " " ++ timeoutString
      let cmd := if cmdPrefix != "" then "./" ++ cmdPrefix ++ " " ++ cmd else cmd
      .ok cmd
    | none => .error "wait action is missing a cluster or network"

/-- Models the wait preprocessing of RunAction (actions.go lines 119 to
145): default maxTotalSeconds to 300 when unset, convert the wait to a
command, then mute the action, zero its retries, and clear dir, env and
setVariables.  Returns the updated action and the command to run (or the
conversion error). -/
def applyWaitDefaults (cmdPrefix : String) (action : BaseAction) :
    BaseAction × Except String String :=
  match action.wait with
  | none => (action, .ok action.cmd)
  | some w =>
    let action := match action.maxTotalSeconds with
      | none => { action with maxTotalSeconds := some 300 }
      | some _ => action
    match convertWaitToCmd cmdPrefix w (action.maxTotalSeconds.getD 0) with
    | .error e => (action, .error e)
    | .ok cmd =>
      ({ action with
          mute := some true
          maxRetries := some 0
          dir := some ""
          env := []
          setVariables := [] }, .ok cmd)

/-- The wait utility in the sense of claim C7: the zarf shell-out,
prefixed when the runner is vendored with Zarf. -/
def waitUtility (cmdPrefix : String) : String :=
  if cmdPrefix != "" then "./" ++ cmdPrefix ++ " " ++ "zarf tools" else "zarf tools"

/-- The optional namespace flag of the synthesized cluster wait command. -/
def nsFlag (ns : String) : String :=
  if ns != "" then "-n " ++ ns else ns

/-- The HTTP status code the network wait defaults to 200 when the
lowered protocol starts with http and no code is set. -/
def effectiveCode (n : ActionWaitNetwork) : Nat :=
  if hasPrefixStr (toLowerStr n.protocol) "http" && n.code == 0 then 200 else n.code

theorem stringMerge_waitFor (X : String) :
    "zarf tools" ++ (" wait-for " ++ X) = "zarf tools wait-for " ++ X := by
  rw [← String.append_assoc]; rfl

theorem stringMerge_timeout (X : String) :
    " " ++ ("--timeout " ++ X) = " --timeout " ++ X := by
  rw [← String.append_assoc]; rfl

/-- Claim C7: for a wait action, RunAction defaults maxTotalSeconds to 300
when unset, forces mute true and maxRetries 0, empties dir, env and
setVariables, and the synthesized command has the documented wait-for
shape for cluster and network waits. -/
theorem runAction_wait_shape (cmdPrefix : String) (a : BaseAction) (w : ActionWait)
    (hw : a.wait = some w) :
    ((applyWaitDefaults cmdPrefix a).1.maxTotalSeconds
        = some (a.maxTotalSeconds.getD 300)) ∧
    (∀ cmd, (applyWaitDefaults cmdPrefix a).2 = .ok cmd →
      (applyWaitDefaults cmdPrefix a).1.mute = some true
      ∧ (applyWaitDefaults cmdPrefix a).1.maxRetries = some 0
      ∧ (applyWaitDefaults cmdPrefix a).1.dir = some ""
      ∧ (applyWaitDefaults cmdPrefix a).1.env = []
      ∧ (applyWaitDefaults cmdPrefix a).1.setVariables = []
      ∧ (∀ c, w.cluster = some c →
          cmd = waitUtility cmdPrefix ++ " wait-for " ++ c.kind ++ " " ++ c.identifier
            ++ " " ++ c.condition ++ " " ++ nsFlag c.nspace
            ++ " " ++ "--timeout " ++ toString (a.maxTotalSeconds.getD 300) ++ "s")
      ∧ (w.cluster = none → ∀ n, w.network = some n →
          cmd = waitUtility cmdPrefix ++ " wait-for " ++ toLowerStr n.protocol ++ " "
            ++ n.address ++ " " ++ toString (effectiveCode n)
            ++ " " ++ "--timeout " ++ toString (a.maxTotalSeconds.getD 300) ++ "s")) := by
  obtain ⟨desc, cmd0, wait0, cIf, mute0, mts, mr, dir0, env0, shell0, sv⟩ := a
  simp only at hw
  subst hw
  cases mts with
  | none =>
    simp only [applyWaitDefaults, Option.getD]
    cases hc : w.cluster with
    | some c =>
      simp only [convertWaitToCmd, hc]
      refine ⟨by trivial, ?_⟩
      intro cmd hcmd
      refine ⟨by trivial, by trivial, by trivial, by trivial, by trivial, ?_, ?_⟩
      · intro c' hc'
        obtain rfl : c = c' := by injection hc'
        simp only [Except.ok.injEq] at hcmd
        subst hcmd
        simp only [waitUtility, nsFlag]
        by_cases hp : (cmdPrefix != "") = true <;>
          simp only [hp, if_true, if_false, eq_false_of_ne_true, String.append_assoc,
            stringMerge_waitFor, stringMerge_timeout] <;> try rfl
      · intro hnone
        exact absurd hnone (by simp)
    | none =>
      cases hn : w.network with
      | some n =>
        simp only [convertWaitToCmd, hc, hn]
        refine ⟨by trivial, ?_⟩
        intro cmd hcmd
        refine ⟨by trivial, by trivial, by trivial, by trivial, by trivial, ?_, ?_⟩
        · intro c' hc'
          exact absurd hc' (by simp)
        · intro _ n' hn'
          obtain rfl : n = n' := by injection hn'
          simp only [Except.ok.injEq] at hcmd
          subst hcmd
          simp only [waitUtility, effectiveCode]
          by_cases hp : (cmdPrefix != "") = true <;>
            simp only [hp, if_true, if_false, eq_false_of_ne_true, String.append_assoc,
              stringMerge_waitFor, stringMerge_timeout] <;> try rfl
      | none =>
        simp only [convertWaitToCmd, hc, hn]
        exact ⟨by trivial, fun cmd hcmd => absurd hcmd (by simp)⟩
  | some s =>
    simp only [applyWaitDefaults, Option.getD]
    cases hc : w.cluster with
    | some c =>
      simp only [convertWaitToCmd, hc]
      refine ⟨by trivial, ?_⟩
      intro cmd hcmd
      refine ⟨by trivial, by trivial, by trivial, by trivial, by trivial, ?_, ?_⟩
      · intro c' hc'
        obtain rfl : c = c' := by injection hc'
        simp only [Except.ok.injEq] at hcmd
        subst hcmd
        simp only [waitUtility, nsFlag]
        by_cases hp : (cmdPrefix != "") = true <;>
          simp only [hp, if_true, if_false, eq_false_of_ne_true, String.append_assoc,
            stringMerge_waitFor, stringMerge_timeout] <;> try rfl
      · intro hnone
        exact absurd hnone (by simp)
    | none =>
      cases hn : w.network with
      | some n =>
        simp only [convertWaitToCmd, hc, hn]
        refine ⟨by trivial, ?_⟩
        intro cmd hcmd
        refine ⟨by trivial, by trivial, by trivial, by trivial, by trivial, ?_, ?_⟩
        · intro c' hc'
          exact absurd hc' (by simp)
        · intro _ n' hn'
          obtain rfl : n = n' := by injection hn'
          simp only [Except.ok.injEq] at hcmd
          subst hcmd
          simp only [waitUtility, effectiveCode]
          by_cases hp : (cmdPrefix != "") = true <;>
            simp only [hp, if_true, if_false, eq_false_of_ne_true, String.append_assoc,
              stringMerge_waitFor, stringMerge_timeout] <;> try rfl
      | none =>
        simp only [convertWaitToCmd, hc, hn]
        exact ⟨by trivial, fun cmd hcmd => absurd hcmd (by simp)⟩

/-- A concrete wait action used by the claim C7 witness: a cluster wait
with namespace ns1 and no timeout set. -/
def waitExampleAction : BaseAction :=
  { description := "", cmd := "",
    wait := some ⟨some ⟨"pod", "mypod", "Ready", "ns1"⟩, none⟩,
    If := "", mute := none, maxTotalSeconds := none, maxRetries := some 5,
    dir := none, env := ["X=1"], shell := none, setVariables := [] }

/-- Concrete instantiation of the claim C7 theorem: the example wait
action gets maxTotalSeconds 300, is muted with zero retries, and its
synthesized command has the documented cluster wait-for shape. -/
theorem runAction_wait_shape_witness :
    (applyWaitDefaults "" waitExampleAction).1.maxTotalSeconds = some 300 ∧
    (applyWaitDefaults "" waitExampleAction).1.mute = some true ∧
    (applyWaitDefaults "" waitExampleAction).1.maxRetries = some 0 ∧
    (applyWaitDefaults "" waitExampleAction).2
      = Except.ok "zarf tools wait-for pod mypod Ready -n ns1 --timeout 300s" ∧
    "zarf tools wait-for pod mypod Ready -n ns1 --timeout 300s"
      = waitUtility "" ++ " wait-for " ++ "pod" ++ " " ++ "mypod" ++ " " ++ "Ready"
        ++ " " ++ nsFlag "ns1" ++ " " ++ "--timeout " ++ toString (300 : Nat) ++ "s" := by
  have h := runAction_wait_shape "" waitExampleAction
    ⟨some ⟨"pod", "mypod", "Ready", "ns1"⟩, none⟩ rfl
  have hok : (applyWaitDefaults "" waitExampleAction).2
      = Except.ok "zarf tools wait-for pod mypod Ready -n ns1 --timeout 300s" := rfl
  have h2 := h.2 _ hok
  exact ⟨h.1, h2.1, h2.2.1, hok, h2.2.2.2.2.2.1 ⟨"pod", "mypod", "Ready", "ns1"⟩ rfl⟩

/- The retry and timeout loop of RunAction, actions.go lines 187 to 261.
ExecAction (line 197, which spawns the child via pkg/exec CmdWithContext)
is modelled as an oracle from the spawn index to the observable outcome of
that attempt; time is counted in whole seconds, with second 0 at line 188
where the timeout channel is created. -/

/-- The observable outcome of one spawned attempt: whether the command
exited successfully, its raw stdout, and the seconds the attempt consumed.
Modelled from the spec (section 4.5); the pkg/exec library is not among
the sources. -/
structure Attempt where
  ok : Bool
  out : String
  elapsed : Nat

/-- One record per ExecAction invocation: the second at which the child
was spawned and the timeout of the cancellation context it ran under
(none for the context.TODO of the untimed branch, actions.go line 227). -/
structure Spawn where
  time : Nat
  ctxWindow : Option Nat
  deriving DecidableEq, Repr

/-- How the loop ended.  The final select (actions.go lines 253 to 261)
reports the timeout error whenever the timeout channel has fired and the
retries-exhausted error otherwise. -/
inductive LoopOutcome
  | success
  | timedOut
  | failed
  deriving DecidableEq, Repr

/-- The state when the retry loop returns: outcome, the log of spawns,
the current second, and the variable store. -/
structure LoopResult where
  outcome : LoopOutcome
  spawns : List Spawn
  t : Nat
  store : Store

/-- Models the setVariables application inside tryCmd (actions.go lines
203 to 211): each variable is written with the trimmed output BEFORE its
pattern is checked, and the loop returns the error at the first mismatch.
Write-then-validate follows the spec (section 4.2); the variables package
is not among the sources. -/
def applySetVariables (out : String) : List Variable → Store → Store × Bool
  | [], store => (store, true)
  | v :: rest, store =>
    let store := (v.name, out) :: store.eraseP (fun e => e.1 == v.name)
    if v.pattern out then applySetVariables out rest store
    else (store, false)

/-- Models tryCmd (actions.go lines 195 to 222): run the attempt; on a
successful exit trim the output and apply setVariables; any error — 
including a pattern mismatch — makes tryCmd return an error. -/
def tryCmd (att : Attempt) (setVars : List Variable) (store : Store) : Store × Bool :=
  if att.ok then applySetVariables (trimSpace att.out) setVars store
  else (store, false)

/-- Models the retry loop of RunAction (actions.go lines 191 to 261) with
the loop counter remaining as fuel.  maxTotalSeconds below 1 selects the
untimed branch (line 225); otherwise the timeout channel, ready from
second maxTotalSeconds on, is polled before each spawn (line 236), and
each spawn runs under a fresh context.WithTimeout window of the full
duration (line 243). -/
def retryLoop (maxTotalSeconds : Nat) (setVars : List Variable) (exec : Nat → Attempt) :
    Nat → Nat → Store → List Spawn → LoopResult
  | 0, t, store, spawns =>
    ⟨if maxTotalSeconds ≤ t then .timedOut else .failed, spawns, t, store⟩
  | rem + 1, t, store, spawns =>
    if maxTotalSeconds < 1 then
      let att := exec spawns.length
      let r := tryCmd att setVars store
      if r.2 then ⟨.success, spawns ++ [⟨t, none⟩], t + att.elapsed, r.1⟩
      else retryLoop maxTotalSeconds setVars exec rem (t + att.elapsed) r.1
        (spawns ++ [⟨t, none⟩])
    else
      if maxTotalSeconds ≤ t then ⟨.timedOut, spawns, t, store⟩
      else
        let att := exec spawns.length
        let r := tryCmd att setVars store
        if r.2 then ⟨.success, spawns ++ [⟨t, some maxTotalSeconds⟩], t + att.elapsed, r.1⟩
        else retryLoop maxTotalSeconds setVars exec rem (t + att.elapsed) r.1
          (spawns ++ [⟨t, some maxTotalSeconds⟩])

/-- Models RunAction entering the retry loop (actions.go line 192) with
the merged configuration: remaining starts at cfg.MaxRetries + 1 and the
timeout channel was created at second 0. -/
def runRetry (cfg : ActionDefaults) (setVars : List Variable) (exec : Nat → Attempt)
    (store : Store) : LoopResult :=
  retryLoop cfg.maxTotalSeconds setVars exec (cfg.maxRetries + 1) 0 store []

theorem retryLoop_spawns_inv (m : Nat) (sv : List Variable) (ex : Nat → Attempt) :
    ∀ (rem t : Nat) (st : Store) (sp : List Spawn),
      ((retryLoop m sv ex rem t st sp).spawns.length ≤ sp.length + rem) ∧
      (∀ s ∈ (retryLoop m sv ex rem t st sp).spawns,
        s ∈ sp ∨ (s.ctxWindow = (if m < 1 then none else some m)
          ∧ (1 ≤ m → s.time < m))) := by
  intro rem
  induction rem with
  | zero =>
    intro t st sp
    refine ⟨by simp [retryLoop], ?_⟩
    intro s hs
    exact Or.inl (by simpa [retryLoop] using hs)
  | succ rem ih =>
    intro t st sp
    by_cases hm : m < 1
    · by_cases hr : (tryCmd (ex sp.length) sv st).2 = true
      · have hres : retryLoop m sv ex (rem + 1) t st sp
            = ⟨.success, sp ++ [⟨t, none⟩], t + (ex sp.length).elapsed,
                (tryCmd (ex sp.length) sv st).1⟩ := by
          simp [retryLoop, hm, hr]
        rw [hres]
        refine ⟨by (try simp only [List.length_append, List.length_cons, List.length_nil]); omega, ?_⟩
        intro s hs
        rcases List.mem_append.mp hs with h | h
        · exact Or.inl h
        · right
          have hseq : s = ⟨t, none⟩ := by simpa using h
          subst hseq
          exact ⟨by simp [hm], fun h1 => absurd h1 (by omega)⟩
      · have hres : retryLoop m sv ex (rem + 1) t st sp
            = retryLoop m sv ex rem (t + (ex sp.length).elapsed)
                (tryCmd (ex sp.length) sv st).1 (sp ++ [⟨t, none⟩]) := by
          simp [retryLoop, hm, hr]
        rw [hres]
        obtain ⟨ihlen, ihmem⟩ := ih (t + (ex sp.length).elapsed)
          (tryCmd (ex sp.length) sv st).1 (sp ++ [⟨t, none⟩])
        refine ⟨by simpa using Nat.le_trans ihlen (by (try simp only [List.length_append, List.length_cons, List.length_nil]); omega), ?_⟩
        intro s hs
        rcases ihmem s hs with h | h
        · rcases List.mem_append.mp h with h | h
          · exact Or.inl h
          · right
            have hseq : s = ⟨t, none⟩ := by simpa using h
            subst hseq
            exact ⟨by simp [hm], fun h1 => absurd h1 (by omega)⟩
        · exact Or.inr h
    · by_cases ht : m ≤ t
      · have hres : retryLoop m sv ex (rem + 1) t st sp = ⟨.timedOut, sp, t, st⟩ := by
          simp [retryLoop, hm, ht]
        rw [hres]
        exact ⟨by (try simp only [List.length_append, List.length_cons, List.length_nil]); omega, fun s hs => Or.inl hs⟩
      · by_cases hr : (tryCmd (ex sp.length) sv st).2 = true
        · have hres : retryLoop m sv ex (rem + 1) t st sp
              = ⟨.success, sp ++ [⟨t, some m⟩], t + (ex sp.length).elapsed,
                  (tryCmd (ex sp.length) sv st).1⟩ := by
            simp [retryLoop, hm, ht, hr]
          rw [hres]
          refine ⟨by (try simp only [List.length_append, List.length_cons, List.length_nil]); omega, ?_⟩
          intro s hs
          rcases List.mem_append.mp hs with h | h
          · exact Or.inl h
          · right
            have hseq : s = ⟨t, some m⟩ := by simpa using h
            subst hseq
            exact ⟨by simp [hm], fun _ => Nat.lt_of_not_le ht⟩
        · have hres : retryLoop m sv ex (rem + 1) t st sp
              = retryLoop m sv ex rem (t + (ex sp.length).elapsed)
                  (tryCmd (ex sp.length) sv st).1 (sp ++ [⟨t, some m⟩]) := by
            simp [retryLoop, hm, ht, hr]
          rw [hres]
          obtain ⟨ihlen, ihmem⟩ := ih (t + (ex sp.length).elapsed)
            (tryCmd (ex sp.length) sv st).1 (sp ++ [⟨t, some m⟩])
          refine ⟨by simpa using Nat.le_trans ihlen (by (try simp only [List.length_append, List.length_cons, List.length_nil]); omega), ?_⟩
          intro s hs
          rcases ihmem s hs with h | h
          · rcases List.mem_append.mp h with h | h
            · exact Or.inl h
            · right
              have hseq : s = ⟨t, some m⟩ := by simpa using h
              subst hseq
              exact ⟨by simp [hm], fun _ => Nat.lt_of_not_le ht⟩
          · exact Or.inr h

/-- Claim C2: the retry loop of RunAction invokes ExecAction at most
maxRetries + 1 times, and when a deadline is set (maxTotalSeconds at least
1) every spawn happens strictly before the deadline second, so no further
process is spawned once the deadline has elapsed. -/
theorem runRetry_spawn_bound (cfg : ActionDefaults) (setVars : List Variable)
    (exec : Nat → Attempt) (store : Store) :
    (runRetry cfg setVars exec store).spawns.length ≤ cfg.maxRetries + 1 ∧
    ∀ s ∈ (runRetry cfg setVars exec store).spawns,
      1 ≤ cfg.maxTotalSeconds → s.time < cfg.maxTotalSeconds := by
  obtain ⟨hlen, hmem⟩ := retryLoop_spawns_inv cfg.maxTotalSeconds setVars exec
    (cfg.maxRetries + 1) 0 store []
  refine ⟨by simpa using hlen, ?_⟩
  intro s hs h1
  rcases hmem s hs with h | h
  · simp at h
  · exact h.2 h1

/-- Concrete instantiation of the claim C2 theorem: two failing attempts
of one second each under a five-second deadline with maxRetries 2. -/
theorem runRetry_spawn_bound_witness :
    (runRetry ⟨false, 5, 2, "", [], ⟨"", "", ""⟩⟩ [] (fun _ => ⟨false, "", 1⟩)
        []).spawns.length ≤ 3 ∧
    (⟨0, some 5⟩ : Spawn).time < 5 := by
  have h := runRetry_spawn_bound ⟨false, 5, 2, "", [], ⟨"", "", ""⟩⟩ []
    (fun _ => ⟨false, "", 1⟩) []
  refine ⟨h.1, ?_⟩
  refine h.2 ⟨0, some 5⟩ ?_ (by decide)
  decide

/-- Claim C4 counterexample: with maxTotalSeconds 10 and a first attempt
failing after 5 seconds, the second attempt is spawned at second 5 under a
context window of the full 10 seconds, so its context deadline 5 + 10
exceeds the overall deadline D = 10: the context is NOT bounded by the
remaining time to D. -/
theorem runRetry_ctx_remaining_cex :
    (runRetry ⟨false, 10, 1, "", [], ⟨"", "", ""⟩⟩ [] (fun _ => ⟨false, "", 5⟩)
        []).spawns = [⟨0, some 10⟩, ⟨5, some 10⟩] ∧
    10 < 5 + 10 := by
  exact ⟨by decide, by decide⟩

/-- Claim C4 amended: every attempt runs under a cancellation context
whose timeout is the full maxTotalSeconds duration measured from the
attempt start (context.WithTimeout(Background, duration), actions.go line
243) — not the remaining time to the overall deadline; the loop separately
ceases spawning once the overall deadline D = maxTotalSeconds elapses. -/
theorem runRetry_ctx_full_window (cfg : ActionDefaults) (setVars : List Variable)
    (exec : Nat → Attempt) (store : Store) :
    ∀ s ∈ (runRetry cfg setVars exec store).spawns,
      s.ctxWindow = (if cfg.maxTotalSeconds < 1 then none else some cfg.maxTotalSeconds)
      ∧ (1 ≤ cfg.maxTotalSeconds → s.time < cfg.maxTotalSeconds) := by
  intro s hs
  rcases (retryLoop_spawns_inv cfg.maxTotalSeconds setVars exec
    (cfg.maxRetries + 1) 0 store []).2 s hs with h | h
  · simp at h
  · exact h

/-- Concrete instantiation of the claim C4 amended theorem: both spawns of
the counterexample run carry the full ten-second window. -/
theorem runRetry_ctx_full_window_witness :
    (⟨5, some 10⟩ : Spawn).ctxWindow = some 10 ∧ (⟨5, some 10⟩ : Spawn).time < 10 := by
  have h := runRetry_ctx_full_window ⟨false, 10, 1, "", [], ⟨"", "", ""⟩⟩ []
    (fun _ => ⟨false, "", 5⟩) [] ⟨5, some 10⟩ (by decide)
  exact ⟨by simpa using h.1, h.2 (by decide)⟩

/-- Claim C3 counterexample: maxRetries 1, an attempt that exits 0 with
output bad, and a setVariables pattern requiring ok.  The pattern check
fails after the successful exit, yet the loop spawns a second process, the
mismatching value bad stays written in the store, and the action ends as
failed-after-retries — not as an immediate pattern failure. -/
theorem patternMismatch_retry_cex :
    (runRetry ⟨false, 100, 1, "", [], ⟨"", "", ""⟩⟩ [⟨"V", fun s => s == "ok"⟩]
        (fun _ => ⟨true, "bad", 1⟩) []).spawns.length = 2 ∧
    (runRetry ⟨false, 100, 1, "", [], ⟨"", "", ""⟩⟩ [⟨"V", fun s => s == "ok"⟩]
        (fun _ => ⟨true, "bad", 1⟩) []).store = [("V", "bad")] ∧
    (runRetry ⟨false, 100, 1, "", [], ⟨"", "", ""⟩⟩ [⟨"V", fun s => s == "ok"⟩]
        (fun _ => ⟨true, "bad", 1⟩) []).outcome = LoopOutcome.failed := by
  exact ⟨by decide, by decide, by decide⟩

theorem retryLoop_allFail_untimed (sv : List Variable) (ex : Nat → Attempt)
    (hfail : ∀ i st, (tryCmd (ex i) sv st).2 = false) :
    ∀ (rem t : Nat) (st : Store) (sp : List Spawn),
      (retryLoop 0 sv ex rem t st sp).spawns.length = sp.length + rem ∧
      (retryLoop 0 sv ex rem t st sp).outcome = .timedOut := by
  intro rem
  induction rem with
  | zero =>
    intro t st sp
    constructor
    · simp [retryLoop]
    · simp [retryLoop]
  | succ rem ih =>
    intro t st sp
    have hres : retryLoop 0 sv ex (rem + 1) t st sp
        = retryLoop 0 sv ex rem (t + (ex sp.length).elapsed)
            (tryCmd (ex sp.length) sv st).1 (sp ++ [⟨t, none⟩]) := by
      simp [retryLoop, hfail sp.length st]
    rw [hres]
    obtain ⟨ihlen, ihout⟩ := ih (t + (ex sp.length).elapsed)
      (tryCmd (ex sp.length) sv st).1 (sp ++ [⟨t, none⟩])
    refine ⟨?_, ihout⟩
    rw [ihlen]
    simp
    omega

/-- Claim C3 amended: a PatternMismatch after a successful exit does not
fail the action immediately; tryCmd reports it as an attempt error and the
retry loop continues — with no deadline set, every attempt fails the
pattern check and all maxRetries + 1 processes are spawned before the
action fails. -/
theorem patternMismatch_retries (cfg : ActionDefaults) (setVars : List Variable)
    (exec : Nat → Attempt) (store : Store)
    (hm : cfg.maxTotalSeconds = 0)
    (hfail : ∀ i st, (tryCmd (exec i) setVars st).2 = false) :
    (runRetry cfg setVars exec store).spawns.length = cfg.maxRetries + 1 ∧
    (runRetry cfg setVars exec store).outcome ≠ .success := by
  unfold runRetry
  rw [hm]
  obtain ⟨hlen, hout⟩ := retryLoop_allFail_untimed setVars exec hfail
    (cfg.maxRetries + 1) 0 store []
  refine ⟨by simpa using hlen, ?_⟩
  rw [hout]
  intro hcontra
  exact LoopOutcome.noConfusion hcontra

/-- Concrete instantiation of the claim C3 amended theorem: with no
deadline, maxRetries 1, and every attempt exiting 0 with output failing
the pattern, both attempts are spawned and the action does not succeed. -/
theorem patternMismatch_retries_witness :
    (runRetry ⟨false, 0, 1, "", [], ⟨"", "", ""⟩⟩ [⟨"V", fun s => s == "ok"⟩]
        (fun _ => ⟨true, "bad", 1⟩) []).spawns.length = 2 ∧
    (runRetry ⟨false, 0, 1, "", [], ⟨"", "", ""⟩⟩ [⟨"V", fun s => s == "ok"⟩]
        (fun _ => ⟨true, "bad", 1⟩) []).outcome ≠ LoopOutcome.success := by
  exact patternMismatch_retries ⟨false, 0, 1, "", [], ⟨"", "", ""⟩⟩
    [⟨"V", fun s => s == "ok"⟩] (fun _ => ⟨true, "bad", 1⟩) [] rfl
    (fun i st => rfl)

end Maru
